import Mathlib

set_option maxRecDepth 10000

deriving instance DecidableEq for Except

/-!
Verification development for the crgodicom DICOM codec.

The repository's two C wrappers (`dcmtk_reader_wrapper.c`, `dcmtk_writer_wrapper.c`)
are embedded directly below as `read_dicom_file_simple` and `write_dicom_file_simple`.
The DICOM Part-10 codec itself (file-meta parsing, TLV data-set parsing and
serialization) is not present in the source tree — the wrappers are stubs that
delegate to a not-yet-integrated external library — so the codec is modelled
from the specification inside namespace `Dicom`.
-/

/- ## Embedding of the C stub `dcmtk_reader_wrapper.c` -/

/-- The out-parameters written by `read_dicom_file_simple` in
`src/internal/dcmtk/dcmtk_reader_wrapper.c`: six string buffers filled by
`strcpy`, three `int` out-parameters, a pixel-data pointer (NULL modelled as
`none`) and its length. -/
structure ReaderOutputs where
  patient_name : String
  patient_id : String
  study_uid : String
  series_uid : String
  instance_uid : String
  modality : String
  width : Int
  height : Int
  bits_per_pixel : Int
  pixel_data : Option (List Nat)
  pixel_data_length : Int
deriving DecidableEq, Repr

/-- Embedding of `read_dicom_file_simple` (dcmtk_reader_wrapper.c lines 5-23):
ignores the filename, fills every out-parameter with fixed dummy data and
returns 0. The C function performs no I/O and never inspects `filename`. -/
def read_dicom_file_simple (filename : String) : ReaderOutputs × Int :=
  (⟨"Test Patient", "TEST001", "1.2.3.4.5", "1.2.3.4.5.1", "1.2.3.4.5.1.1", "CT",
    512, 512, 16, none, 0⟩, 0)

/-- Embedding of `test_dcmtk_simple` (dcmtk_reader_wrapper.c lines 26-28). -/
def test_dcmtk_simple : Int := 42

/-- The argument record of `write_dicom_file_simple` in
`src/internal/dcmtk/dcmtk_writer_wrapper.c` (all `const` in the C source). -/
structure WriterArgs where
  filename : String
  patient_name : String
  patient_id : String
  study_uid : String
  series_uid : String
  instance_uid : String
  modality : String
  width : Int
  height : Int
  bits_allocated : Int
  pixel_data : Option (List Nat)
  pixel_data_length : Int
deriving DecidableEq, Repr

/-- Embedding of `write_dicom_file_simple` (dcmtk_writer_wrapper.c lines 4-19):
the body is `return 0;`. The result is the (unchanged) argument memory, the
list of bytes emitted to the file system (none), and the return code. -/
def write_dicom_file_simple (args : WriterArgs) : WriterArgs × List Nat × Int :=
  (args, [], 0)

namespace Dicom

/- ## Data model, modelled from the spec (the codec is absent from src/) -/

/-- Modelled from the spec: a byte stream. Real bytes are 0..255; the writer
only ever emits values below 256 and the parser's numeric decoders reduce
modulo 256, so the model does not need a global range invariant. -/
abbrev Bytes := List Nat

/-- Modelled from the spec (§7 Error handling design): the enumerated error
kinds of the codec. -/
inductive CodecError
  | BadMagic
  | TruncatedHeader
  | TruncatedValue
  | UnsupportedTransferSyntax
  | UnknownTag
  | OutOfOrderTag
  | SequenceTooDeep
  | PixelDataSizeMismatch
  | InvalidUID
  | IOFailure
deriving DecidableEq, Repr

/-- Modelled from the spec (§3 Data model): the transfer syntaxes governing the
data-set encoding. The model covers the two uncompressed little-endian
syntaxes; encapsulated variants are out of the claims' scope. -/
inductive TransferSyntax
  | implicitVRLittleEndian
  | explicitVRLittleEndian
deriving DecidableEq, Repr

/-- Modelled from the spec (§3): the value representations relevant to the
ImageRecord projection. -/
inductive VR
  | CS | LO | PN | UI | UL | US | OW | UN
deriving DecidableEq, Repr

/-- Modelled from the spec (§2 TagRegistry): static mapping from (group,
element) to value representation for the well-known attributes the
ImageRecord projection uses; unregistered tags fall back to UN. -/
def TagRegistry.lookup (g e : Nat) : VR :=
  if g = 2 ∧ e = 0 then .UL
  else if g = 2 then .UI
  else if g = 8 ∧ e = 24 then .UI
  else if g = 8 ∧ e = 96 then .CS
  else if g = 16 ∧ e = 16 then .PN
  else if g = 16 ∧ e = 32 then .LO
  else if g = 32 then .UI
  else if g = 40 then .US
  else if g = 32736 ∧ e = 16 then .OW
  else .UN

/-- Modelled from the spec (§3): VRs whose explicit encoding uses the long
form (2 reserved bytes then a 4-byte length) rather than a 2-byte length. -/
def isLongVR : VR → Bool
  | .OW => true
  | .UN => true
  | _ => false

/-- The two-character code serialized for each VR under explicit encoding. -/
def vrCode : VR → Bytes
  | .CS => [67, 83]
  | .LO => [76, 79]
  | .PN => [80, 78]
  | .UI => [85, 73]
  | .UL => [85, 76]
  | .US => [85, 83]
  | .OW => [79, 87]
  | .UN => [85, 78]

/-- Little-endian encoding of a 16-bit quantity. -/
def encodeLE16 (n : Nat) : Bytes := [n % 256, n / 256 % 256]

/-- Little-endian decoding of a 16-bit quantity. -/
def decodeLE16 (b0 b1 : Nat) : Nat := b0 % 256 + b1 % 256 * 256

/-- Little-endian encoding of a 32-bit quantity. -/
def encodeLE32 (n : Nat) : Bytes := encodeLE16 (n % 65536) ++ encodeLE16 (n / 65536 % 65536)

/-- Little-endian decoding of a 32-bit quantity. -/
def decodeLE32 (b0 b1 b2 b3 : Nat) : Nat := decodeLE16 b0 b1 + decodeLE16 b2 b3 * 65536

/-- Decode a US (unsigned short) element value; a malformed value decodes
to 0. -/
def decodeUS : Bytes → Nat
  | b0 :: b1 :: _ => decodeLE16 b0 b1
  | _ => 0

/-- Decode a UL (unsigned long) element value; a malformed value decodes
to 0. -/
def decodeUL : Bytes → Nat
  | b0 :: b1 :: b2 :: b3 :: _ => decodeLE32 b0 b1 b2 b3
  | _ => 0

/-- Remove the trailing run of the padding byte `p` from a value (string VRs
pad with a space, UI pads with a null byte; decoding strips the padding). -/
def stripTrail (p : Nat) (v : Bytes) : Bytes :=
  (v.reverse.dropWhile fun b => b == p).reverse

/-- Modelled from the spec (§3 invariants): odd-length values are padded to
even length with the VR's padding byte on serialization. -/
def padEven (p : Nat) (v : Bytes) : Bytes :=
  if v.length % 2 = 0 then v else v ++ [p]

/- ## UID validation, modelled from the spec (§3 invariants, §8) -/

/-- ASCII decimal digit test on a byte. -/
def isDigitByte (b : Nat) : Bool := 48 ≤ b && b ≤ 57

/-- Split a byte string on the ASCII dot (46); always returns at least one
component, and empty components witness consecutive or terminal dots. -/
def splitDot : Bytes → List Bytes
  | [] => [[]]
  | b :: rest =>
    let r := splitDot rest
    if b = 46 then [] :: r
    else
      match r with
      | c :: cs => (b :: c) :: cs
      | [] => [[b]]

/-- Modelled from the spec (§3 invariants): one numeric UID component —
nonempty, all decimal digits, and no leading zero unless it is the literal
component "0". -/
def uidComponentOK (c : Bytes) : Bool :=
  !c.isEmpty && c.all isDigitByte && (c.length = 1 || c.headD 0 != 48)

/-- Modelled from the spec (§3 invariants): a UID is a dot-separated sequence
of numeric components of total length at most 64. -/
def isValidUID (u : Bytes) : Bool :=
  u.length ≤ 64 && (splitDot u).all uidComponentOK

/-- Modelled from the spec (§7, §8): UID validation as a fallible operation
rejecting malformed UIDs with `InvalidUID`. -/
def validateUID (u : Bytes) : Except CodecError Bytes :=
  if isValidUID u then .ok u else .error .InvalidUID

/- ## Pixel sizing, modelled from the spec (§4.4) -/

/-- Modelled from the spec (§4.4 PixelDataExtractor): the conformant byte size
of an uncompressed pixel buffer, rows × columns × bitsAllocated/8 ×
samplesPerPixel × frames. -/
def expectedPixelBytes (rows cols bitsAllocated samplesPerPixel frames : Nat) : Nat :=
  rows * cols * (bitsAllocated / 8) * samplesPerPixel * frames

/-- Modelled from the spec (§4.4, §8): validation of an uncompressed
pixel-data buffer against the geometry-derived size; a mismatch yields
`PixelDataSizeMismatch`. -/
def validatePixelData (rows cols bitsAllocated samplesPerPixel frames : Nat)
    (buf : Bytes) : Except CodecError Bytes :=
  if buf.length = expectedPixelBytes rows cols bitsAllocated samplesPerPixel frames
  then .ok buf else .error .PixelDataSizeMismatch

/- ## Data elements and the TLV codec, modelled from the spec (§4.2, §4.5) -/

/-- Modelled from the spec (§3): one data element — tag (group, element) and
raw value bytes. The VR is resolved through `TagRegistry.lookup` from the
tag, as the ImageRecord projection carries no per-element VR. -/
structure DataElement where
  group : Nat
  elem : Nat
  value : Bytes
deriving DecidableEq, Repr

/-- Modelled from the spec (§4.5 DataSetWriter): serialize one element under a
transfer syntax. Implicit VR: tag, 4-byte length, value. Explicit VR: tag,
2-byte VR code, then a 2-byte length for short VRs or 2 reserved bytes and a
4-byte length for long VRs. -/
def serializeElement (ts : TransferSyntax) (el : DataElement) : Bytes :=
  let tag := encodeLE16 el.group ++ encodeLE16 el.elem
  match ts with
  | .implicitVRLittleEndian => tag ++ encodeLE32 el.value.length ++ el.value
  | .explicitVRLittleEndian =>
    let vr := TagRegistry.lookup el.group el.elem
    if isLongVR vr then
      tag ++ vrCode vr ++ [0, 0] ++ encodeLE32 el.value.length ++ el.value
    else
      tag ++ vrCode vr ++ encodeLE16 el.value.length ++ el.value

/-- Serialize a list of elements in order. -/
def serializeElements (ts : TransferSyntax) : List DataElement → Bytes
  | [] => []
  | el :: rest => serializeElement ts el ++ serializeElements ts rest

/-- Read a declared-length value off the cursor. Odd declared lengths are a
format violation (spec §3: every value length is even) and a declared length
past the end of input is a truncation; both fail with `TruncatedValue`. -/
def readValue (g e len : Nat) (bs : Bytes) : Except CodecError (DataElement × Bytes) :=
  if len % 2 = 0 ∧ len ≤ bs.length then .ok (⟨g, e, bs.take len⟩, bs.drop len)
  else .error .TruncatedValue

/-- Modelled from the spec (§4.2 DataElementParser): decode exactly one
element from the cursor. The tag is read little-endian; under explicit VR the
2-byte VR code is read and the length-field width is taken from the VR class,
which the model resolves via `TagRegistry.lookup` (unregistered tags fall back
to the long-form UN); under implicit VR a 4-byte length follows the tag
directly. Fails with `TruncatedValue` when the input ends inside an element. -/
def parseElement (ts : TransferSyntax) : Bytes → Except CodecError (DataElement × Bytes)
  | g0 :: g1 :: e0 :: e1 :: rest =>
    let g := decodeLE16 g0 g1
    let e := decodeLE16 e0 e1
    match ts with
    | .implicitVRLittleEndian =>
      match rest with
      | l0 :: l1 :: l2 :: l3 :: rest2 => readValue g e (decodeLE32 l0 l1 l2 l3) rest2
      | _ => .error .TruncatedValue
    | .explicitVRLittleEndian =>
      if isLongVR (TagRegistry.lookup g e) then
        match rest with
        | _ :: _ :: _ :: _ :: l0 :: l1 :: l2 :: l3 :: rest2 =>
          readValue g e (decodeLE32 l0 l1 l2 l3) rest2
        | _ => .error .TruncatedValue
      else
        match rest with
        | _ :: _ :: l0 :: l1 :: rest2 => readValue g e (decodeLE16 l0 l1) rest2
        | _ => .error .TruncatedValue
  | _ => .error .TruncatedValue

/-- Modelled from the spec (§4.3 DataSetParser): drive `parseElement` until
the cursor is exhausted; a trailing partial element is a `TruncatedValue`
failure. Fuelled (the fuel is instantiated with the region length; every
element consumes at least one byte). -/
def parseElements : Nat → TransferSyntax → Bytes → Except CodecError (List DataElement)
  | _, _, [] => .ok []
  | 0, _, _ :: _ => .error .TruncatedValue
  | fuel + 1, ts, b :: bs =>
    match parseElement ts (b :: bs) with
    | .error e => .error e
    | .ok (el, rest) =>
      match parseElements fuel ts rest with
      | .error e => .error e
      | .ok els => .ok (el :: els)

/-- First value carried by the element with the given tag; a missing element
reads as the empty (zero-length) value. -/
def findValue (g e : Nat) (els : List DataElement) : Bytes :=
  match els.find? fun el => el.group == g && el.elem == e with
  | some el => el.value
  | none => []

/- ## ImageRecord, file-meta codec, read and write (spec §4.1, §6) -/

/-- Modelled from the spec (§3): the top-level external unit — identifying
UIDs, patient identifiers, modality, and the pixel-data descriptor fields. -/
structure ImageRecord where
  patientName : Bytes
  patientID : Bytes
  studyUID : Bytes
  seriesUID : Bytes
  instanceUID : Bytes
  modality : Bytes
  rows : Nat
  cols : Nat
  bitsAllocated : Nat
  samplesPerPixel : Nat
  frames : Nat
  pixelData : Bytes
deriving DecidableEq, Repr

/-- The registered UID naming each supported transfer syntax, as ASCII
bytes. -/
def tsUIDBytes : TransferSyntax → Bytes
  | .implicitVRLittleEndian =>
    [49, 46, 50, 46, 56, 52, 48, 46, 49, 48, 48, 48, 56, 46, 49, 46, 50]
  | .explicitVRLittleEndian =>
    [49, 46, 50, 46, 56, 52, 48, 46, 49, 48, 48, 48, 56, 46, 49, 46, 50, 46, 49]

/-- Map a transfer-syntax UID to the enumerated `TransferSyntax`; an
unrecognized UID has no mapping (spec §4.1: `UnsupportedTransferSyntax`). -/
def lookupTS (u : Bytes) : Option TransferSyntax :=
  if u = tsUIDBytes .implicitVRLittleEndian then some .implicitVRLittleEndian
  else if u = tsUIDBytes .explicitVRLittleEndian then some .explicitVRLittleEndian
  else none

/-- The preamble-plus-magic prefix of a Part-10 file: 128 opaque bytes then
the ASCII "DICM". -/
def DICM : Bytes := [68, 73, 67, 77]

/-- Project the parsed data-set elements onto the ImageRecord fields: string
VRs strip their trailing space padding, UI values strip trailing null
padding, US values decode little-endian, and the pixel buffer is taken
verbatim from tag (7FE0,0010). -/
def buildRecord (els : List DataElement) : ImageRecord where
  patientName := stripTrail 32 (findValue 16 16 els)
  patientID := stripTrail 32 (findValue 16 32 els)
  studyUID := stripTrail 0 (findValue 32 13 els)
  seriesUID := stripTrail 0 (findValue 32 14 els)
  instanceUID := stripTrail 0 (findValue 8 24 els)
  modality := stripTrail 32 (findValue 8 96 els)
  rows := decodeUS (findValue 40 16 els)
  cols := decodeUS (findValue 40 17 els)
  bitsAllocated := decodeUS (findValue 40 256 els)
  samplesPerPixel := decodeUS (findValue 40 2 els)
  frames := decodeUS (findValue 40 8 els)
  pixelData := findValue 32736 16 els

/-- Modelled from the spec (§3 invariants, §4.4): a decoded record is accepted
only if its three identifying UIDs are well-formed and its pixel buffer has
the geometry-derived conformant size. -/
def validateRecord (R : ImageRecord) : Except CodecError ImageRecord :=
  match validateUID R.studyUID with
  | .error e => .error e
  | .ok _ =>
    match validateUID R.seriesUID with
    | .error e => .error e
    | .ok _ =>
      match validateUID R.instanceUID with
      | .error e => .error e
      | .ok _ =>
        match validatePixelData R.rows R.cols R.bitsAllocated R.samplesPerPixel
            R.frames R.pixelData with
        | .error e => .error e
        | .ok _ => .ok R

/-- Modelled from the spec (§4.1 FileMetaCodec): the preamble-and-magic check.
Fails with `TruncatedHeader` below 132 bytes and with `BadMagic` when bytes
128..132 are not the literal ASCII "DICM"; on success yields the cursor
positioned after the magic. -/
def parseHeader (B : Bytes) : Except CodecError Bytes :=
  if B.length < 132 then .error .TruncatedHeader
  else if (B.drop 128).take 4 ≠ DICM then .error .BadMagic
  else .ok (B.drop 132)

/-- Modelled from the spec (§4.1): decode the file-meta group, always as
Explicit-VR Little-Endian. The group starts with its group-length element
(0002,0000) which bounds the remaining meta elements; yields the meta
elements and the cursor positioned at the data set. -/
def parseMetaGroup (after : Bytes) : Except CodecError (List DataElement × Bytes) :=
  match parseElement .explicitVRLittleEndian after with
  | .error e => .error e
  | .ok (glenEl, rest) =>
    if glenEl.group = 2 ∧ glenEl.elem = 0 then
      let glen := decodeUL glenEl.value
      if glen ≤ rest.length then
        match parseElements glen .explicitVRLittleEndian (rest.take glen) with
        | .error e => .error e
        | .ok metaEls => .ok (metaEls, rest.drop glen)
      else .error .TruncatedHeader
    else .error .TruncatedHeader

/-- Modelled from the spec (§4.1): extract the Transfer Syntax UID element
(0002,0010) and fail with `UnsupportedTransferSyntax` if it does not match a
known enumerated value. -/
def resolveTS (metaEls : List DataElement) : Except CodecError TransferSyntax :=
  match lookupTS (stripTrail 0 (findValue 2 16 metaEls)) with
  | none => .error .UnsupportedTransferSyntax
  | some ts => .ok ts

/-- Modelled from the spec (§4.1, §6): the full decode — header, file-meta
group, transfer-syntax resolution, data-set parse under that syntax, then
projection and validation of the ImageRecord. Returns the governing transfer
syntax alongside the record. -/
def readFull (B : Bytes) : Except CodecError (TransferSyntax × ImageRecord) := do
  let after ← parseHeader B
  let pm ← parseMetaGroup after
  let ts ← resolveTS pm.1
  let dataEls ← parseElements pm.2.length ts pm.2
  let R ← validateRecord (buildRecord dataEls)
  return (ts, R)

/-- Modelled from the spec (§6): `read(bytes) -> Result<ImageRecord,
CodecError>`. -/
def read (B : Bytes) : Except CodecError ImageRecord :=
  (readFull B).map fun p => p.2

/-- The transfer syntax declared by a file's meta group (the projection of
`readFull` the round-trip property quantifies over). -/
def readTS (B : Bytes) : Except CodecError TransferSyntax :=
  (readFull B).map fun p => p.1

/-- Modelled from the spec (§4.1): the file-meta elements written for a
record — the media-storage SOP instance UID (0002,0003) and the transfer
syntax UID (0002,0010), UI values padded to even length with a null byte. -/
def metaElements (R : ImageRecord) (ts : TransferSyntax) : List DataElement :=
  [⟨2, 3, padEven 0 R.instanceUID⟩, ⟨2, 16, padEven 0 (tsUIDBytes ts)⟩]

/-- The serialized body of the file-meta group (everything after the
group-length element (0002,0000)); the group length is derived from this. -/
def metaBody (R : ImageRecord) (ts : TransferSyntax) : Bytes :=
  serializeElements .explicitVRLittleEndian (metaElements R ts)

/-- Modelled from the spec (§4.5): the data-set elements written for a
record, in strictly ascending tag order; string values padded to even length
per VR padding rule, US values encoded little-endian, pixel data written
verbatim under tag (7FE0,0010). -/
def dataElements (R : ImageRecord) : List DataElement :=
  [⟨8, 24, padEven 0 R.instanceUID⟩,
   ⟨8, 96, padEven 32 R.modality⟩,
   ⟨16, 16, padEven 32 R.patientName⟩,
   ⟨16, 32, padEven 32 R.patientID⟩,
   ⟨32, 13, padEven 0 R.studyUID⟩,
   ⟨32, 14, padEven 0 R.seriesUID⟩,
   ⟨40, 2, encodeLE16 R.samplesPerPixel⟩,
   ⟨40, 8, encodeLE16 R.frames⟩,
   ⟨40, 16, encodeLE16 R.rows⟩,
   ⟨40, 17, encodeLE16 R.cols⟩,
   ⟨40, 256, encodeLE16 R.bitsAllocated⟩,
   ⟨32736, 16, R.pixelData⟩]

/-- The file-meta group-length element (0002,0000): its value is recomputed
from the byte size of the serialized meta elements that follow it, never
copied from input (spec §4.1, §4.5). -/
def glenElement (R : ImageRecord) (ts : TransferSyntax) : DataElement :=
  ⟨2, 0, encodeLE32 (metaBody R ts).length⟩

/-- The serialized data set of a written file. -/
def dataBytes (R : ImageRecord) (ts : TransferSyntax) : Bytes :=
  serializeElements ts (dataElements R)

/-- Modelled from the spec (§4.1, §4.5, §6): `write(ImageRecord,
TransferSyntax) -> bytes` — a zero preamble, the "DICM" magic, the file-meta
group whose group-length element (0002,0000) is recomputed from the byte size
of the serialized meta elements (never copied from input), then the data set
under the chosen transfer syntax. -/
def write (R : ImageRecord) (ts : TransferSyntax) : Bytes :=
  List.replicate 128 0 ++ DICM ++
    (serializeElement .explicitVRLittleEndian (glenElement R ts) ++
      (metaBody R ts ++ dataBytes R ts))

/- ## Well-formedness -/

/-- The length constraints under which `serializeElement` is inverted by
`parseElement`: tag halves fit 16 bits, the value has even length, and the
value length fits the length field chosen by the transfer syntax and the
tag's VR class. -/
def valueFits (ts : TransferSyntax) (el : DataElement) : Bool :=
  decide (el.group < 65536) && decide (el.elem < 65536) &&
    decide (el.value.length % 2 = 0) &&
    (match ts with
     | .implicitVRLittleEndian => decide (el.value.length < 4294967296)
     | .explicitVRLittleEndian =>
       if isLongVR (TagRegistry.lookup el.group el.elem)
       then decide (el.value.length < 4294967296)
       else decide (el.value.length < 65536))

/-- A record in the image of a successful `read`: every element it writes
fits its length fields, its string fields carry no trailing padding, its
numeric fields fit 16 bits, its UIDs are valid and its pixel buffer has the
conformant size. Exactly the records the writer round-trips. -/
def WFRecord (ts : TransferSyntax) (R : ImageRecord) : Bool :=
  (dataElements R).all (valueFits ts) &&
    (metaElements R ts).all (valueFits .explicitVRLittleEndian) &&
    decide (stripTrail 32 R.patientName = R.patientName) &&
    decide (stripTrail 32 R.patientID = R.patientID) &&
    decide (stripTrail 32 R.modality = R.modality) &&
    decide (stripTrail 0 R.studyUID = R.studyUID) &&
    decide (stripTrail 0 R.seriesUID = R.seriesUID) &&
    decide (stripTrail 0 R.instanceUID = R.instanceUID) &&
    decide (R.rows < 65536) && decide (R.cols < 65536) &&
    decide (R.bitsAllocated < 65536) && decide (R.samplesPerPixel < 65536) &&
    decide (R.frames < 65536) &&
    isValidUID R.studyUID && isValidUID R.seriesUID && isValidUID R.instanceUID &&
    decide (R.pixelData.length =
      expectedPixelBytes R.rows R.cols R.bitsAllocated R.samplesPerPixel R.frames)

/-- ASCII bytes of a string literal (used to state concrete UID test cases). -/
def asciiBytes (s : String) : Bytes := s.data.map Char.toNat

/-- A small concrete record exercising every field of the codec: 2×2 8-bit
single-sample single-frame pixels, odd- and even-length strings and UIDs. -/
def sampleRecord : ImageRecord where
  patientName := [65, 66]
  patientID := [67, 68]
  studyUID := [49]
  seriesUID := [49, 46, 50]
  instanceUID := [49, 46, 51]
  modality := [67, 84]
  rows := 2
  cols := 2
  bitsAllocated := 8
  samplesPerPixel := 1
  frames := 1
  pixelData := [1, 2, 3, 4]

/-- A record whose 142-digit media-storage SOP instance UID makes the
serialized file-meta group body exactly 178 bytes long under Explicit VR
Little Endian. -/
def R178 : ImageRecord where
  patientName := []
  patientID := []
  studyUID := []
  seriesUID := []
  instanceUID := List.replicate 142 49
  modality := []
  rows := 0
  cols := 0
  bitsAllocated := 0
  samplesPerPixel := 0
  frames := 0
  pixelData := []

/- ## Arithmetic lemmas for the little-endian codecs -/

theorem decodeLE16_lt (b0 b1 : Nat) : decodeLE16 b0 b1 < 65536 := by
  unfold decodeLE16; omega

theorem decodeLE32_lt (b0 b1 b2 b3 : Nat) : decodeLE32 b0 b1 b2 b3 < 4294967296 := by
  unfold decodeLE32 decodeLE16; omega

theorem decodeLE16_encodeLE16 (n : Nat) (h : n < 65536) :
    decodeLE16 (n % 256) (n / 256 % 256) = n := by
  unfold decodeLE16; omega

theorem decodeLE32_encodeLE32 (n : Nat) (h : n < 4294967296) :
    decodeLE32 (n % 65536 % 256) (n % 65536 / 256 % 256)
      (n / 65536 % 65536 % 256) (n / 65536 % 65536 / 256 % 256) = n := by
  unfold decodeLE32 decodeLE16; omega

theorem decodeUS_encodeLE16 (n : Nat) (h : n < 65536) :
    decodeUS (encodeLE16 n) = n := by
  simpa [decodeUS, encodeLE16] using decodeLE16_encodeLE16 n h

theorem decodeUL_encodeLE32 (n : Nat) (h : n < 4294967296) :
    decodeUL (encodeLE32 n) = n := by
  simpa [decodeUL, encodeLE32, encodeLE16] using decodeLE32_encodeLE32 n h

/- ## Element-level inversion: parsing a serialized element recovers it -/

theorem vrCode_pair (vr : VR) : ∃ a b, vrCode vr = [a, b] := by
  cases vr <;> exact ⟨_, _, rfl⟩

theorem readValue_exact (g e : Nat) (v rest : Bytes) (heven : v.length % 2 = 0) :
    readValue g e v.length (v ++ rest) = .ok (⟨g, e, v⟩, rest) := by
  unfold readValue
  rw [if_pos ⟨heven, by simp⟩, List.take_left, List.drop_left]

theorem parseElement_implicit_encode (g e : Nat) (hg : g < 65536) (he : e < 65536)
    (v rest : Bytes) (heven : v.length % 2 = 0) (hlen : v.length < 4294967296) :
    parseElement .implicitVRLittleEndian
      (encodeLE16 g ++ encodeLE16 e ++ encodeLE32 v.length ++ (v ++ rest)) =
      .ok (⟨g, e, v⟩, rest) := by
  simp only [encodeLE16, encodeLE32, List.cons_append, List.nil_append, List.append_assoc]
  simp only [parseElement, decodeLE16_encodeLE16 g hg, decodeLE16_encodeLE16 e he,
    decodeLE32_encodeLE32 v.length hlen]
  exact readValue_exact g e v rest heven

theorem parseElement_explicit_short_encode (g e : Nat) (hg : g < 65536) (he : e < 65536)
    (hvr : isLongVR (TagRegistry.lookup g e) = false) (a b : Nat)
    (v rest : Bytes) (heven : v.length % 2 = 0) (hlen : v.length < 65536) :
    parseElement .explicitVRLittleEndian
      (encodeLE16 g ++ encodeLE16 e ++ ([a, b] ++ encodeLE16 v.length ++ (v ++ rest))) =
      .ok (⟨g, e, v⟩, rest) := by
  simp only [encodeLE16, List.cons_append, List.nil_append, List.append_assoc]
  simp only [parseElement, decodeLE16_encodeLE16 g hg, decodeLE16_encodeLE16 e he, hvr,
    Bool.false_eq_true, if_false, decodeLE16_encodeLE16 v.length hlen]
  exact readValue_exact g e v rest heven

theorem parseElement_explicit_long_encode (g e : Nat) (hg : g < 65536) (he : e < 65536)
    (hvr : isLongVR (TagRegistry.lookup g e) = true) (a b r0 r1 : Nat)
    (v rest : Bytes) (heven : v.length % 2 = 0) (hlen : v.length < 4294967296) :
    parseElement .explicitVRLittleEndian
      (encodeLE16 g ++ encodeLE16 e ++ ([a, b, r0, r1] ++ encodeLE32 v.length ++ (v ++ rest))) =
      .ok (⟨g, e, v⟩, rest) := by
  simp only [encodeLE16, encodeLE32, List.cons_append, List.nil_append, List.append_assoc]
  simp only [parseElement, decodeLE16_encodeLE16 g hg, decodeLE16_encodeLE16 e he, hvr,
    if_true, decodeLE32_encodeLE32 v.length hlen]
  exact readValue_exact g e v rest heven

/-- Unpacked form of `valueFits`. -/
theorem valueFits_iff (ts : TransferSyntax) (el : DataElement) :
    valueFits ts el = true ↔
      el.group < 65536 ∧ el.elem < 65536 ∧ el.value.length % 2 = 0 ∧
        (match ts with
         | .implicitVRLittleEndian => el.value.length < 4294967296
         | .explicitVRLittleEndian =>
           if isLongVR (TagRegistry.lookup el.group el.elem) = true
           then el.value.length < 4294967296
           else el.value.length < 65536) := by
  cases ts <;>
    simp [valueFits, Bool.and_eq_true, decide_eq_true_eq, and_assoc]

/-- Parsing inverts serialization on any element whose lengths fit. -/
theorem parseElement_serializeElement (ts : TransferSyntax) (el : DataElement)
    (rest : Bytes) (h : valueFits ts el = true) :
    parseElement ts (serializeElement ts el ++ rest) = .ok (el, rest) := by
  obtain ⟨hg, he, heven, hlen⟩ := (valueFits_iff ts el).1 h
  obtain ⟨g, e, v⟩ := el
  cases ts with
  | implicitVRLittleEndian =>
    simpa [serializeElement, List.append_assoc] using
      parseElement_implicit_encode g e hg he v rest heven hlen
  | explicitVRLittleEndian =>
    obtain ⟨a, b, hab⟩ := vrCode_pair (TagRegistry.lookup g e)
    simp only at hlen
    cases hvr : isLongVR (TagRegistry.lookup g e) with
    | false =>
      rw [hvr, if_neg (by simp)] at hlen
      simpa [serializeElement, hvr, hab, List.append_assoc] using
        parseElement_explicit_short_encode g e hg he hvr a b v rest heven hlen
    | true =>
      rw [hvr, if_pos rfl] at hlen
      have : vrCode (TagRegistry.lookup g e) ++ [0, 0] = [a, b, 0, 0] := by rw [hab]; rfl
      simpa [serializeElement, hvr, hab, List.append_assoc] using
        parseElement_explicit_long_encode g e hg he hvr a b 0 0 v rest heven hlen

/- ## List-level inversion -/

theorem length_serializeElement (ts : TransferSyntax) (el : DataElement) :
    (serializeElement ts el).length = 8 + el.value.length ∨
      (serializeElement ts el).length = 12 + el.value.length := by
  obtain ⟨a, b, hab⟩ := vrCode_pair (TagRegistry.lookup el.group el.elem)
  cases ts with
  | implicitVRLittleEndian =>
    left; simp [serializeElement, encodeLE16, encodeLE32]; omega
  | explicitVRLittleEndian =>
    cases hvr : isLongVR (TagRegistry.lookup el.group el.elem) with
    | false => left; simp [serializeElement, hvr, hab, encodeLE16]; omega
    | true => right; simp [serializeElement, hvr, hab, encodeLE16, encodeLE32]; omega

theorem serializeElement_ne_nil (ts : TransferSyntax) (el : DataElement) :
    serializeElement ts el ≠ [] := by
  intro h
  have hlen := congrArg List.length h
  simp only [List.length_nil] at hlen
  rcases length_serializeElement ts el with h8 | h12 <;> omega

theorem parseElements_nil (fuel : Nat) (ts : TransferSyntax) :
    parseElements fuel ts [] = .ok [] := by
  cases fuel <;> rfl

/-- Parsing a serialized element list with enough fuel recovers the list. -/
theorem parseElements_serializeElements (ts : TransferSyntax) (els : List DataElement)
    (h : ∀ el ∈ els, valueFits ts el = true) (fuel : Nat)
    (hf : (serializeElements ts els).length ≤ fuel) :
    parseElements fuel ts (serializeElements ts els) = .ok els := by
  induction els generalizing fuel with
  | nil => exact parseElements_nil fuel ts
  | cons el tail ih =>
    have hel : valueFits ts el = true := h el (by simp)
    have htail : ∀ x ∈ tail, valueFits ts x = true := fun x hx => h x (by simp [hx])
    have hser : serializeElements ts (el :: tail) =
        serializeElement ts el ++ serializeElements ts tail := rfl
    have hlen8 : 8 ≤ (serializeElement ts el).length := by
      rcases length_serializeElement ts el with h8 | h12 <;> omega
    obtain ⟨x, xs, hx⟩ : ∃ x xs, serializeElement ts el = x :: xs := by
      cases hl : serializeElement ts el with
      | nil => exact absurd hl (serializeElement_ne_nil ts el)
      | cons y ys => exact ⟨y, ys, rfl⟩
    have hlenall : (serializeElements ts (el :: tail)).length =
        (serializeElement ts el).length + (serializeElements ts tail).length := by
      rw [hser]; simp
    cases fuel with
    | zero =>
      exfalso
      rw [hlenall] at hf
      omega
    | succ f =>
      have hps := parseElement_serializeElement ts el (serializeElements ts tail) hel
      have hrec := ih htail f (by rw [hlenall] at hf; omega)
      rw [hser, hx, List.cons_append]
      simp only [parseElements]
      rw [← List.cons_append, ← hx]
      simp only [hps, hrec]

/- ## Padding and stripping lemmas -/

theorem dropWhile_self (p : Nat → Bool) (l : List Nat) :
    (l.dropWhile p).dropWhile p = l.dropWhile p := by
  cases h : l.dropWhile p with
  | nil => rfl
  | cons a as =>
    rw [List.dropWhile_cons]
    have hh := List.head?_dropWhile_not p l
    rw [h] at hh
    simp only [List.head?_cons, Option.all_some] at hh
    simp [hh]

theorem stripTrail_idem (p : Nat) (v : Bytes) :
    stripTrail p (stripTrail p v) = stripTrail p v := by
  unfold stripTrail
  rw [List.reverse_reverse, dropWhile_self]

theorem stripTrail_append_pad (p : Nat) (v : Bytes) :
    stripTrail p (v ++ [p]) = stripTrail p v := by
  unfold stripTrail
  rw [List.reverse_append]
  simp [List.dropWhile_cons]

theorem stripTrail_padEven (p : Nat) (v : Bytes) (h : stripTrail p v = v) :
    stripTrail p (padEven p v) = v := by
  unfold padEven
  split
  · exact h
  · rw [stripTrail_append_pad, h]

theorem length_stripTrail_le (p : Nat) (v : Bytes) :
    (stripTrail p v).length ≤ v.length := by
  unfold stripTrail
  rw [List.length_reverse]
  calc (v.reverse.dropWhile fun b => b == p).length
      ≤ v.reverse.length := (List.dropWhile_suffix _).sublist.length_le
    _ = v.length := List.length_reverse v

theorem stripTrail_eq_of_length (p : Nat) (v : Bytes)
    (h : (stripTrail p v).length = v.length) : stripTrail p v = v := by
  unfold stripTrail at *
  rw [List.length_reverse] at h
  have hs : v.reverse.dropWhile (fun b => b == p) = v.reverse :=
    (List.dropWhile_suffix _).sublist.eq_of_length (by rw [h, List.length_reverse])
  rw [hs, List.reverse_reverse]

theorem length_padEven_le (p : Nat) (v : Bytes) :
    (padEven p v).length ≤ v.length + 1 := by
  unfold padEven; split <;> simp

theorem length_padEven_even (p : Nat) (v : Bytes) :
    (padEven p v).length % 2 = 0 := by
  unfold padEven
  split
  · assumption
  · rename_i h
    simp only [List.length_append, List.length_cons, List.length_nil]
    omega

theorem length_padEven_stripTrail (p : Nat) (v : Bytes) (heven : v.length % 2 = 0) :
    (padEven p (stripTrail p v)).length ≤ v.length := by
  have hle := length_stripTrail_le p v
  by_cases hs : (stripTrail p v).length % 2 = 0
  · rw [padEven, if_pos hs]; exact hle
  · rw [padEven, if_neg hs]
    have hne : (stripTrail p v).length ≠ v.length := by omega
    simp only [List.length_append, List.length_cons, List.length_nil]
    omega

/- ## Exact serialized-length formulas -/

theorem length_encodeLE16 (n : Nat) : (encodeLE16 n).length = 2 := rfl

theorem length_encodeLE32 (n : Nat) : (encodeLE32 n).length = 4 := rfl

theorem length_serializeElement_implicit (el : DataElement) :
    (serializeElement .implicitVRLittleEndian el).length = 8 + el.value.length := by
  simp [serializeElement, encodeLE16, encodeLE32]; omega

theorem length_serializeElement_explicit_short (el : DataElement)
    (hvr : isLongVR (TagRegistry.lookup el.group el.elem) = false) :
    (serializeElement .explicitVRLittleEndian el).length = 8 + el.value.length := by
  obtain ⟨a, b, hab⟩ := vrCode_pair (TagRegistry.lookup el.group el.elem)
  simp [serializeElement, hvr, hab, encodeLE16]; omega

theorem length_serializeElements_cons (ts : TransferSyntax) (el : DataElement)
    (els : List DataElement) :
    (serializeElements ts (el :: els)).length =
      (serializeElement ts el).length + (serializeElements ts els).length := by
  show (serializeElement ts el ++ serializeElements ts els).length = _
  simp

/- ## Well-formedness unpacking and small consequences -/

theorem WFRecord_iff (ts : TransferSyntax) (R : ImageRecord) :
    WFRecord ts R = true ↔
      (∀ el ∈ dataElements R, valueFits ts el = true) ∧
      (∀ el ∈ metaElements R ts, valueFits .explicitVRLittleEndian el = true) ∧
      stripTrail 32 R.patientName = R.patientName ∧
      stripTrail 32 R.patientID = R.patientID ∧
      stripTrail 32 R.modality = R.modality ∧
      stripTrail 0 R.studyUID = R.studyUID ∧
      stripTrail 0 R.seriesUID = R.seriesUID ∧
      stripTrail 0 R.instanceUID = R.instanceUID ∧
      R.rows < 65536 ∧ R.cols < 65536 ∧ R.bitsAllocated < 65536 ∧
      R.samplesPerPixel < 65536 ∧ R.frames < 65536 ∧
      isValidUID R.studyUID = true ∧ isValidUID R.seriesUID = true ∧
      isValidUID R.instanceUID = true ∧
      R.pixelData.length = expectedPixelBytes R.rows R.cols R.bitsAllocated
        R.samplesPerPixel R.frames := by
  simp only [WFRecord, Bool.and_eq_true, decide_eq_true_eq, List.all_eq_true, and_assoc]

theorem isValidUID_le64 (u : Bytes) (h : isValidUID u = true) : u.length ≤ 64 := by
  simp only [isValidUID, Bool.and_eq_true, decide_eq_true_eq] at h
  exact h.1

theorem decodeUS_lt (v : Bytes) : decodeUS v < 65536 := by
  match v with
  | [] => simp [decodeUS]
  | [b] => simp [decodeUS]
  | b0 :: b1 :: rest => exact decodeLE16_lt b0 b1

/- ## The meta group of a written file -/

theorem length_padEven_tsUID (ts : TransferSyntax) :
    (padEven 0 (tsUIDBytes ts)).length ≤ 20 := by
  cases ts <;> decide

theorem length_metaBody (R : ImageRecord) (ts : TransferSyntax) :
    (metaBody R ts).length =
      16 + (padEven 0 R.instanceUID).length + (padEven 0 (tsUIDBytes ts)).length := by
  unfold metaBody metaElements
  rw [length_serializeElements_cons, length_serializeElements_cons,
    length_serializeElement_explicit_short ⟨2, 3, padEven 0 R.instanceUID⟩ (by rfl),
    length_serializeElement_explicit_short ⟨2, 16, padEven 0 (tsUIDBytes ts)⟩ (by rfl)]
  show _ + (_ + (List.length [] : Nat)) = _
  simp only [List.length_nil]
  omega

theorem length_metaBody_lt (R : ImageRecord) (ts : TransferSyntax)
    (h : isValidUID R.instanceUID = true) :
    (metaBody R ts).length < 4294967296 := by
  rw [length_metaBody]
  have h1 := isValidUID_le64 R.instanceUID h
  have h2 := length_padEven_le 0 R.instanceUID
  have h3 := length_padEven_tsUID ts
  omega

theorem valueFits_glen (n : Nat) :
    valueFits .explicitVRLittleEndian ⟨2, 0, encodeLE32 n⟩ = true := by
  simp [valueFits, TagRegistry.lookup, isLongVR, encodeLE32, encodeLE16]

/- ## Reading back a written file, stage by stage -/

/-- A written file, after the 128-byte preamble and the magic, starts with
the recomputed group-length element followed by the meta group body and the
data set. -/
theorem write_drop_132 (R : ImageRecord) (ts : TransferSyntax) :
    (write R ts).drop 132 =
      serializeElement .explicitVRLittleEndian (glenElement R ts) ++
        (metaBody R ts ++ dataBytes R ts) := by
  unfold write
  rw [List.append_assoc, ← List.append_assoc]
  exact List.drop_left' (by simp [DICM])

theorem parseHeader_write (R : ImageRecord) (ts : TransferSyntax) :
    parseHeader (write R ts) =
      .ok (serializeElement .explicitVRLittleEndian (glenElement R ts) ++
        (metaBody R ts ++ dataBytes R ts)) := by
  unfold parseHeader write
  have h1 : (List.replicate 128 (0:Nat) ++
      (DICM ++ (serializeElement .explicitVRLittleEndian (glenElement R ts) ++
        (metaBody R ts ++ dataBytes R ts)))).length =
      132 + (serializeElement .explicitVRLittleEndian (glenElement R ts) ++
        (metaBody R ts ++ dataBytes R ts)).length := by
    simp [DICM]; omega
  have hd128 : (List.replicate 128 (0:Nat) ++
      (DICM ++ (serializeElement .explicitVRLittleEndian (glenElement R ts) ++
        (metaBody R ts ++ dataBytes R ts)))).drop 128 =
      DICM ++ (serializeElement .explicitVRLittleEndian (glenElement R ts) ++
        (metaBody R ts ++ dataBytes R ts)) :=
    List.drop_left' (by simp)
  have hd132 : (List.replicate 128 (0:Nat) ++
      (DICM ++ (serializeElement .explicitVRLittleEndian (glenElement R ts) ++
        (metaBody R ts ++ dataBytes R ts)))).drop 132 =
      serializeElement .explicitVRLittleEndian (glenElement R ts) ++
        (metaBody R ts ++ dataBytes R ts) := by
    rw [← List.append_assoc]
    exact List.drop_left' (by simp [DICM])
  have ht4 : (DICM ++ (serializeElement .explicitVRLittleEndian (glenElement R ts) ++
      (metaBody R ts ++ dataBytes R ts))).take 4 = DICM :=
    List.take_left' (by decide)
  rw [List.append_assoc]
  rw [h1, if_neg (by omega), hd128, ht4, if_neg (by simp), hd132]

theorem parseMetaGroup_write (R : ImageRecord) (ts : TransferSyntax)
    (hiu : isValidUID R.instanceUID = true)
    (hmeta : ∀ el ∈ metaElements R ts, valueFits .explicitVRLittleEndian el = true) :
    parseMetaGroup (serializeElement .explicitVRLittleEndian (glenElement R ts) ++
        (metaBody R ts ++ dataBytes R ts)) =
      .ok (metaElements R ts, dataBytes R ts) := by
  unfold parseMetaGroup
  rw [parseElement_serializeElement .explicitVRLittleEndian (glenElement R ts)
    (metaBody R ts ++ dataBytes R ts) (valueFits_glen _)]
  show (if (2:Nat) = 2 ∧ (0:Nat) = 0 then _ else _) = _
  rw [if_pos ⟨rfl, rfl⟩]
  have hUL : decodeUL (glenElement R ts).value = (metaBody R ts).length := by
    show decodeUL (encodeLE32 (metaBody R ts).length) = _
    exact decodeUL_encodeLE32 _ (length_metaBody_lt R ts hiu)
  show (if decodeUL (glenElement R ts).value ≤ (metaBody R ts ++ dataBytes R ts).length
      then _ else _) = _
  rw [hUL, if_pos (by simp), List.take_left, List.drop_left]
  have hpm : parseElements (metaBody R ts).length .explicitVRLittleEndian (metaBody R ts) =
      .ok (metaElements R ts) :=
    parseElements_serializeElements .explicitVRLittleEndian (metaElements R ts) hmeta
      (metaBody R ts).length (le_refl _)
  rw [hpm]

theorem resolveTS_meta (R : ImageRecord) (ts : TransferSyntax) :
    resolveTS (metaElements R ts) = .ok ts := by
  unfold resolveTS metaElements
  have hfind : findValue 2 16 [(⟨2, 3, padEven 0 R.instanceUID⟩ : DataElement),
      ⟨2, 16, padEven 0 (tsUIDBytes ts)⟩] = padEven 0 (tsUIDBytes ts) := by
    simp [findValue, List.find?]
  rw [hfind]
  have hstrip : stripTrail 0 (padEven 0 (tsUIDBytes ts)) = tsUIDBytes ts := by
    cases ts <;> decide
  rw [hstrip]
  have hlk : lookupTS (tsUIDBytes ts) = some ts := by cases ts <;> decide
  rw [hlk]

theorem bind_ok_reduce {α β : Type} (a : α) (f : α → Except CodecError β) :
    (Except.ok a : Except CodecError α) >>= f = f a := rfl

theorem buildRecord_dataElements (R : ImageRecord)
    (hpn : stripTrail 32 R.patientName = R.patientName)
    (hpid : stripTrail 32 R.patientID = R.patientID)
    (hmod : stripTrail 32 R.modality = R.modality)
    (hsu : stripTrail 0 R.studyUID = R.studyUID)
    (hse : stripTrail 0 R.seriesUID = R.seriesUID)
    (hiu : stripTrail 0 R.instanceUID = R.instanceUID)
    (hr : R.rows < 65536) (hc : R.cols < 65536) (hb : R.bitsAllocated < 65536)
    (hsp : R.samplesPerPixel < 65536) (hfr : R.frames < 65536) :
    buildRecord (dataElements R) = R := by
  cases R with
  | mk pn pid su se iu mo r c b sp fr px =>
    simp only at hpn hpid hmod hsu hse hiu hr hc hb hsp hfr
    simp only [buildRecord, ImageRecord.mk.injEq]
    exact ⟨stripTrail_padEven 32 pn hpn, stripTrail_padEven 32 pid hpid,
      stripTrail_padEven 0 su hsu, stripTrail_padEven 0 se hse,
      stripTrail_padEven 0 iu hiu, stripTrail_padEven 32 mo hmod,
      decodeUS_encodeLE16 r hr, decodeUS_encodeLE16 c hc,
      decodeUS_encodeLE16 b hb, decodeUS_encodeLE16 sp hsp,
      decodeUS_encodeLE16 fr hfr, rfl⟩

theorem validateRecord_ok (R : ImageRecord)
    (h1 : isValidUID R.studyUID = true) (h2 : isValidUID R.seriesUID = true)
    (h3 : isValidUID R.instanceUID = true)
    (h4 : R.pixelData.length =
      expectedPixelBytes R.rows R.cols R.bitsAllocated R.samplesPerPixel R.frames) :
    validateRecord R = .ok R := by
  simp [validateRecord, validateUID, validatePixelData, h1, h2, h3, h4]

/-- Reading back a written well-formed record succeeds and recovers the
record together with the transfer syntax it was written under. -/
theorem readFull_write (ts : TransferSyntax) (R : ImageRecord)
    (h : WFRecord ts R = true) : readFull (write R ts) = .ok (ts, R) := by
  obtain ⟨hdata, hmeta, hpn, hpid, hmod, hsu, hse, hiu, hr, hc, hb, hsp, hfr,
    hvsu, hvse, hviu, hpx⟩ := (WFRecord_iff ts R).1 h
  have hpd : parseElements (dataBytes R ts).length ts (dataBytes R ts) =
      .ok (dataElements R) :=
    parseElements_serializeElements ts (dataElements R) hdata
      (dataBytes R ts).length (le_refl _)
  have hbr : buildRecord (dataElements R) = R :=
    buildRecord_dataElements R hpn hpid hmod hsu hse hiu hr hc hb hsp hfr
  have hvr : validateRecord R = .ok R := validateRecord_ok R hvsu hvse hviu hpx
  unfold readFull
  rw [parseHeader_write R ts, bind_ok_reduce,
    parseMetaGroup_write R ts hviu hmeta, bind_ok_reduce]
  show resolveTS (metaElements R ts) >>= _ = _
  rw [resolveTS_meta R ts, bind_ok_reduce]
  show parseElements (dataBytes R ts).length ts (dataBytes R ts) >>= _ = _
  rw [hpd, bind_ok_reduce, hbr, hvr, bind_ok_reduce]
  rfl

/- ## Inversion: what a successful parse guarantees -/

theorem readValue_inv (g e len : Nat) (bs : Bytes) (el : DataElement) (rest : Bytes)
    (h : readValue g e len bs = .ok (el, rest)) :
    el = ⟨g, e, bs.take len⟩ ∧ rest = bs.drop len ∧ len % 2 = 0 ∧ len ≤ bs.length := by
  unfold readValue at h
  split at h
  · rename_i hc
    injection h with h1
    injection h1 with h2 h3
    exact ⟨h2.symm, h3.symm, hc.1, hc.2⟩
  · exact absurd h (by simp)

theorem readValue_fits_implicit (g0 g1 e0 e1 len : Nat) (bs : Bytes)
    (el : DataElement) (rest : Bytes) (hlen : len < 4294967296)
    (h : readValue (decodeLE16 g0 g1) (decodeLE16 e0 e1) len bs = .ok (el, rest)) :
    valueFits .implicitVRLittleEndian el = true ∧ rest.length ≤ bs.length := by
  obtain ⟨hel, hrest, heven, hle⟩ := readValue_inv _ _ _ _ _ _ h
  subst hel hrest
  refine ⟨(valueFits_iff _ _).2 ⟨decodeLE16_lt g0 g1, decodeLE16_lt e0 e1, ?_, ?_⟩, ?_⟩
  · simp [List.length_take]; omega
  · show (bs.take len).length < 4294967296
    simp [List.length_take]; omega
  · simp [List.length_drop]

theorem parseElement_fits (ts : TransferSyntax) (bs : Bytes) (el : DataElement)
    (rest : Bytes) (h : parseElement ts bs = .ok (el, rest)) :
    valueFits ts el = true ∧ rest.length < bs.length := by
  unfold parseElement at h
  split at h
  case h_2 => exact absurd h (by simp)
  case h_1 g0 g1 e0 e1 tl =>
    cases ts with
    | implicitVRLittleEndian =>
      simp only at h
      split at h
      case h_2 => exact absurd h (by simp)
      case h_1 l0 l1 l2 l3 rest2 =>
        obtain ⟨hfits, hle⟩ :=
          readValue_fits_implicit g0 g1 e0 e1 _ rest2 el rest (decodeLE32_lt l0 l1 l2 l3) h
        refine ⟨hfits, ?_⟩
        simp only [List.length_cons]
        omega
    | explicitVRLittleEndian =>
      simp only at h
      split at h <;> rename_i hvr
      · -- long VR form
        split at h
        case h_2 => exact absurd h (by simp)
        case h_1 a b r0 r1 l0 l1 l2 l3 rest2 =>
          obtain ⟨hel, hrest, heven, hle⟩ := readValue_inv _ _ _ _ _ _ h
          subst hel hrest
          constructor
          · refine (valueFits_iff _ _).2
              ⟨decodeLE16_lt g0 g1, decodeLE16_lt e0 e1, ?_, ?_⟩
            · simp [List.length_take]; omega
            · simp only
              rw [if_pos hvr]
              show (rest2.take _).length < 4294967296
              have := decodeLE32_lt l0 l1 l2 l3
              simp [List.length_take]; omega
          · simp only [List.length_cons, List.length_drop]
            omega
      · -- short VR form
        split at h
        case h_2 => exact absurd h (by simp)
        case h_1 a b l0 l1 rest2 =>
          obtain ⟨hel, hrest, heven, hle⟩ := readValue_inv _ _ _ _ _ _ h
          subst hel hrest
          constructor
          · refine (valueFits_iff _ _).2
              ⟨decodeLE16_lt g0 g1, decodeLE16_lt e0 e1, ?_, ?_⟩
            · simp [List.length_take]; omega
            · simp only
              rw [if_neg hvr]
              show (rest2.take _).length < 65536
              have := decodeLE16_lt l0 l1
              simp [List.length_take]; omega
          · simp only [List.length_cons, List.length_drop]
            omega

theorem parseElements_fits (fuel : Nat) (ts : TransferSyntax) (bs : Bytes)
    (els : List DataElement) (h : parseElements fuel ts bs = .ok els) :
    ∀ el ∈ els, valueFits ts el = true := by
  induction fuel generalizing bs els with
  | zero =>
    cases bs with
    | nil =>
      injection h with h1
      subst h1
      intro el hel
      cases hel
    | cons b tl => exact absurd h (by simp [parseElements])
  | succ f ih =>
    cases bs with
    | nil =>
      injection h with h1
      subst h1
      intro el hel
      cases hel
    | cons b tl =>
      rw [parseElements] at h
      split at h
      · exact absurd h (by simp)
      · rename_i el1 rest1 hpe
        split at h
        · exact absurd h (by simp)
        · rename_i tailEls hrec
          injection h with h1
          subst h1
          intro el hel
          rcases List.mem_cons.1 hel with rfl | hmem
          · exact (parseElement_fits ts (b :: tl) el rest1 hpe).1
          · exact ih rest1 tailEls hrec el hmem

theorem validateUID_ok_iff (u v : Bytes) :
    validateUID u = .ok v ↔ isValidUID u = true ∧ v = u := by
  unfold validateUID
  split <;> rename_i hc
  · simp [hc, eq_comm]
  · simp [hc]

theorem validatePixelData_ok_iff (rows cols b sp fr : Nat) (buf v : Bytes) :
    validatePixelData rows cols b sp fr buf = .ok v ↔
      buf.length = expectedPixelBytes rows cols b sp fr ∧ v = buf := by
  unfold validatePixelData
  split <;> rename_i hc
  · simp [hc, eq_comm]
  · simp [hc]

theorem validateRecord_inv (X R : ImageRecord) (h : validateRecord X = .ok R) :
    R = X ∧ isValidUID X.studyUID = true ∧ isValidUID X.seriesUID = true ∧
      isValidUID X.instanceUID = true ∧
      X.pixelData.length =
        expectedPixelBytes X.rows X.cols X.bitsAllocated X.samplesPerPixel X.frames := by
  unfold validateRecord at h
  split at h
  · exact absurd h (by simp)
  · rename_i v1 h1
    split at h
    · exact absurd h (by simp)
    · rename_i v2 h2
      split at h
      · exact absurd h (by simp)
      · rename_i v3 h3
        split at h
        · exact absurd h (by simp)
        · rename_i v4 h4
          injection h with h5
          exact ⟨h5.symm, ((validateUID_ok_iff _ _).1 h1).1,
            ((validateUID_ok_iff _ _).1 h2).1, ((validateUID_ok_iff _ _).1 h3).1,
            ((validatePixelData_ok_iff _ _ _ _ _ _ _).1 h4).1⟩

/- ## Every record a successful read yields is well formed -/

theorem findValue_cases (g e : Nat) (els : List DataElement) :
    findValue g e els = [] ∨
      ∃ el, el ∈ els ∧ el.group = g ∧ el.elem = e ∧ el.value = findValue g e els := by
  unfold findValue
  cases hf : els.find? fun el => el.group == g && el.elem == e with
  | none => left; rfl
  | some el =>
    right
    have hmem := List.mem_of_find?_eq_some hf
    have hp := List.find?_some hf
    simp only [Bool.and_eq_true, beq_iff_eq] at hp
    exact ⟨el, hmem, hp.1, hp.2, rfl⟩

theorem valueFits_nil (ts : TransferSyntax) (g e : Nat)
    (hg : g < 65536) (he : e < 65536) : valueFits ts ⟨g, e, []⟩ = true := by
  refine (valueFits_iff _ _).2 ⟨hg, he, by norm_num, ?_⟩
  cases ts
  · norm_num
  · simp only
    split <;> norm_num

theorem valueFits_uid_elem (ts : TransferSyntax) (g e : Nat) (u : Bytes)
    (hg : g < 65536) (he : e < 65536)
    (hshort : isLongVR (TagRegistry.lookup g e) = false) (hu : u.length ≤ 64) :
    valueFits ts ⟨g, e, padEven 0 u⟩ = true := by
  have hple := length_padEven_le 0 u
  refine (valueFits_iff _ _).2 ⟨hg, he, length_padEven_even 0 u, ?_⟩
  cases ts
  · simp only; omega
  · simp only
    rw [hshort]
    simp only [Bool.false_eq_true, if_false]
    omega

theorem valueFits_pad_strip (ts : TransferSyntax) (g e p : Nat)
    (els : List DataElement) (hg : g < 65536) (he : e < 65536)
    (hfit : ∀ el ∈ els, valueFits ts el = true) :
    valueFits ts ⟨g, e, padEven p (stripTrail p (findValue g e els))⟩ = true := by
  rcases findValue_cases g e els with hnil | ⟨el, hmem, hgr, hel, hval⟩
  · rw [hnil]
    show valueFits ts ⟨g, e, []⟩ = true
    exact valueFits_nil ts g e hg he
  · obtain ⟨_, _, heven, hbound⟩ := (valueFits_iff ts el).1 (hfit el hmem)
    rw [hval] at heven hbound
    rw [hgr, hel] at hbound
    have hle := length_padEven_stripTrail p (findValue g e els) heven
    refine (valueFits_iff _ _).2 ⟨hg, he, length_padEven_even _ _, ?_⟩
    cases ts
    · simp only at hbound ⊢
      omega
    · simp only at hbound ⊢
      split <;> rename_i hvr <;> simp only [hvr, if_true, Bool.false_eq_true,
        if_false] at hbound <;> omega

theorem valueFits_US (ts : TransferSyntax) (e n : Nat) (he : e < 65536) :
    valueFits ts ⟨40, e, encodeLE16 n⟩ = true := by
  refine (valueFits_iff _ _).2 ⟨by norm_num, he, by simp [encodeLE16], ?_⟩
  have hlk : TagRegistry.lookup 40 e = .US := by
    simp [TagRegistry.lookup]
  cases ts <;> simp [hlk, isLongVR, encodeLE16]

theorem valueFits_pixel (ts : TransferSyntax) (els : List DataElement)
    (hfit : ∀ el ∈ els, valueFits ts el = true) :
    valueFits ts ⟨32736, 16, findValue 32736 16 els⟩ = true := by
  rcases findValue_cases 32736 16 els with hnil | ⟨el, hmem, hgr, hel, hval⟩
  · rw [hnil]
    exact valueFits_nil ts 32736 16 (by norm_num) (by norm_num)
  · have : (⟨32736, 16, findValue 32736 16 els⟩ : DataElement) = el := by
      cases el
      simp only at hgr hel hval
      simp [hgr, hel, hval]
    rw [this]
    exact hfit el hmem

theorem valueFits_tsuid (ts : TransferSyntax) :
    valueFits .explicitVRLittleEndian ⟨2, 16, padEven 0 (tsUIDBytes ts)⟩ = true := by
  cases ts <;> decide

/-- The record built from any list of fitting elements, once its UIDs and
pixel size validate, is well formed for the governing transfer syntax. -/
theorem WFRecord_buildRecord (ts : TransferSyntax) (els : List DataElement)
    (hfit : ∀ el ∈ els, valueFits ts el = true)
    (hvsu : isValidUID (buildRecord els).studyUID = true)
    (hvse : isValidUID (buildRecord els).seriesUID = true)
    (hviu : isValidUID (buildRecord els).instanceUID = true)
    (hpx : (buildRecord els).pixelData.length =
      expectedPixelBytes (buildRecord els).rows (buildRecord els).cols
        (buildRecord els).bitsAllocated (buildRecord els).samplesPerPixel
        (buildRecord els).frames) :
    WFRecord ts (buildRecord els) = true := by
  refine (WFRecord_iff _ _).2
    ⟨?_, ?_, stripTrail_idem 32 (findValue 16 16 els),
      stripTrail_idem 32 (findValue 16 32 els), stripTrail_idem 32 (findValue 8 96 els),
      stripTrail_idem 0 (findValue 32 13 els), stripTrail_idem 0 (findValue 32 14 els),
      stripTrail_idem 0 (findValue 8 24 els),
      decodeUS_lt (findValue 40 16 els), decodeUS_lt (findValue 40 17 els),
      decodeUS_lt (findValue 40 256 els), decodeUS_lt (findValue 40 2 els),
      decodeUS_lt (findValue 40 8 els), hvsu, hvse, hviu, hpx⟩
  · intro el hel
    simp only [dataElements, List.mem_cons, List.not_mem_nil, or_false] at hel
    rcases hel with rfl | rfl | rfl | rfl | rfl | rfl | rfl | rfl | rfl | rfl | rfl | rfl
    · exact valueFits_uid_elem ts 8 24 (buildRecord els).instanceUID (by norm_num)
        (by norm_num) (by decide) (isValidUID_le64 _ hviu)
    · exact valueFits_pad_strip ts 8 96 32 els (by norm_num) (by norm_num) hfit
    · exact valueFits_pad_strip ts 16 16 32 els (by norm_num) (by norm_num) hfit
    · exact valueFits_pad_strip ts 16 32 32 els (by norm_num) (by norm_num) hfit
    · exact valueFits_uid_elem ts 32 13 (buildRecord els).studyUID (by norm_num)
        (by norm_num) (by decide) (isValidUID_le64 _ hvsu)
    · exact valueFits_uid_elem ts 32 14 (buildRecord els).seriesUID (by norm_num)
        (by norm_num) (by decide) (isValidUID_le64 _ hvse)
    · exact valueFits_US ts 2 _ (by norm_num)
    · exact valueFits_US ts 8 _ (by norm_num)
    · exact valueFits_US ts 16 _ (by norm_num)
    · exact valueFits_US ts 17 _ (by norm_num)
    · exact valueFits_US ts 256 _ (by norm_num)
    · exact valueFits_pixel ts els hfit
  · intro el hel
    simp only [metaElements, List.mem_cons, List.not_mem_nil, or_false] at hel
    rcases hel with rfl | rfl
    · exact valueFits_uid_elem .explicitVRLittleEndian 2 3 (buildRecord els).instanceUID
        (by norm_num) (by norm_num) (by decide) (isValidUID_le64 _ hviu)
    · exact valueFits_tsuid ts

theorem bind_error_reduce {α β : Type} (e : CodecError) (f : α → Except CodecError β) :
    (Except.error e : Except CodecError α) >>= f = .error e := rfl

/-- Inversion of a successful full decode: the record is the validated
projection of a data set whose elements all fit, hence well formed. -/
theorem readFull_ok_WF (B : Bytes) (ts : TransferSyntax) (R : ImageRecord)
    (h : readFull B = .ok (ts, R)) : WFRecord ts R = true := by
  unfold readFull at h
  cases hh : parseHeader B with
  | error e => rw [hh, bind_error_reduce] at h; exact absurd h (by simp)
  | ok after =>
    rw [hh, bind_ok_reduce] at h
    cases hm : parseMetaGroup after with
    | error e => rw [hm, bind_error_reduce] at h; exact absurd h (by simp)
    | ok pm =>
      rw [hm, bind_ok_reduce] at h
      cases hts : resolveTS pm.1 with
      | error e => rw [hts, bind_error_reduce] at h; exact absurd h (by simp)
      | ok ts1 =>
        rw [hts, bind_ok_reduce] at h
        cases hde : parseElements pm.2.length ts1 pm.2 with
        | error e => rw [hde, bind_error_reduce] at h; exact absurd h (by simp)
        | ok dataEls =>
          rw [hde, bind_ok_reduce] at h
          cases hv : validateRecord (buildRecord dataEls) with
          | error e => rw [hv, bind_error_reduce] at h; exact absurd h (by simp)
          | ok R1 =>
            rw [hv, bind_ok_reduce] at h
            have hpair : ts1 = ts ∧ R1 = R := by
              have : (Except.ok (ts1, R1) : Except CodecError _) = .ok (ts, R) := h
              injection this with h1
              exact ⟨congrArg Prod.fst h1, congrArg Prod.snd h1⟩
            obtain ⟨rfl, rfl⟩ := hpair
            obtain ⟨hR, hvsu, hvse, hviu, hpx⟩ := validateRecord_inv _ _ hv
            subst hR
            exact WFRecord_buildRecord ts1 dataEls
              (parseElements_fits pm.2.length ts1 pm.2 dataEls hde) hvsu hvse hviu hpx

/- ## Characterizations of the public surface -/

theorem read_ok_iff (B : Bytes) (R : ImageRecord) :
    read B = .ok R ↔ ∃ ts, readFull B = .ok (ts, R) := by
  unfold read
  cases h : readFull B with
  | error e =>
    constructor
    · intro h2
      exact absurd h2 (by simp [Except.map])
    · rintro ⟨ts, hts⟩
      cases hts
  | ok p =>
    constructor
    · intro h2
      have hp2 : p.2 = R := by
        have h3 : (Except.ok p.2 : Except CodecError ImageRecord) = .ok R := h2
        injection h3
      refine ⟨p.1, ?_⟩
      rw [← hp2]
    · rintro ⟨ts, hts⟩
      injection hts with h3
      show Except.ok p.2 = .ok R
      rw [h3]

theorem readFull_of_read_readTS (B : Bytes) (R : ImageRecord) (T : TransferSyntax)
    (hread : read B = .ok R) (hts : readTS B = .ok T) : readFull B = .ok (T, R) := by
  unfold read at hread
  unfold readTS at hts
  cases hf : readFull B with
  | error e =>
    rw [hf] at hread
    exact absurd hread (by simp [Except.map])
  | ok p =>
    rw [hf] at hread hts
    have h2 : p.2 = R := by
      have h3 : (Except.ok p.2 : Except CodecError ImageRecord) = .ok R := hread
      injection h3
    have h1 : p.1 = T := by
      have h3 : (Except.ok p.1 : Except CodecError TransferSyntax) = .ok T := hts
      injection h3
    rw [← h1, ← h2]

/- ## Claim theorems -/

/-- C1: round-trip — for every byte buffer `B` that `read` decodes
successfully under the transfer syntax `T` its file-meta group declares,
serializing the decoded record with `write` under `T` and decoding again
yields the same decoded record: `read (write (read B) T) = read B`. -/
theorem round_trip_read_write (B : Bytes) (T : TransferSyntax) (R : ImageRecord)
    (hread : read B = .ok R) (hts : readTS B = .ok T) :
    read (write R T) = .ok R := by
  have hfull := readFull_of_read_readTS B R T hread hts
  have hWF := readFull_ok_WF B T R hfull
  exact (read_ok_iff _ _).2 ⟨T, readFull_write T R hWF⟩

/-- Witness for C1 at a concrete file: the serialization of `sampleRecord`
under Explicit VR Little Endian decodes back to `sampleRecord`. -/
theorem round_trip_read_write_witness :
    read (write sampleRecord .explicitVRLittleEndian) = .ok sampleRecord :=
  round_trip_read_write (write sampleRecord .explicitVRLittleEndian)
    .explicitVRLittleEndian sampleRecord (by decide) (by decide)

/-- C2: magic check — every input of at least 132 bytes whose bytes 128..132
are not the literal ASCII "DICM" fails with `BadMagic`. -/
theorem magic_check (B : Bytes) (h132 : 132 ≤ B.length)
    (hmagic : (B.drop 128).take 4 ≠ DICM) : read B = .error .BadMagic := by
  unfold read readFull parseHeader
  rw [if_neg (by omega), if_pos hmagic]
  rfl

/-- Witness for C2: a buffer of 132 zero bytes fails with `BadMagic`. -/
theorem magic_check_witness :
    read (List.replicate 132 0) = .error .BadMagic :=
  magic_check (List.replicate 132 0) (by simp) (by decide)

/-- C3: truncated header — every input of fewer than 132 bytes fails with
`TruncatedHeader`; no ImageRecord is produced. -/
theorem truncated_header (B : Bytes) (h : B.length < 132) :
    read B = .error .TruncatedHeader := by
  unfold read readFull parseHeader
  rw [if_pos h]
  rfl

/-- Witness for C3 at the empty input. -/
theorem truncated_header_witness : read [] = .error .TruncatedHeader :=
  truncated_header [] (by simp)

/-- C4: pixel sizing — for a 512×512, 16-bit-allocated, single-sample,
single-frame image the conformant uncompressed pixel buffer is exactly
524288 = 512·512·16/8·1·1 bytes: a buffer of that length is accepted, and a
524287-byte buffer yields `PixelDataSizeMismatch`. -/
theorem pixel_sizing (buf : Bytes) :
    expectedPixelBytes 512 512 16 1 1 = 524288 ∧
    (buf.length = 524288 → validatePixelData 512 512 16 1 1 buf = .ok buf) ∧
    (buf.length = 524287 →
      validatePixelData 512 512 16 1 1 buf = .error .PixelDataSizeMismatch) := by
  refine ⟨by norm_num [expectedPixelBytes], ?_, ?_⟩
  · intro h
    unfold validatePixelData
    rw [if_pos (by rw [h]; norm_num [expectedPixelBytes])]
  · intro h
    unfold validatePixelData
    rw [if_neg (by rw [h]; norm_num [expectedPixelBytes])]

/-- Witness for C4 at concrete buffers of 524288 and 524287 zero bytes. -/
theorem pixel_sizing_witness :
    validatePixelData 512 512 16 1 1 (List.replicate 524288 0) =
      .ok (List.replicate 524288 0) ∧
    validatePixelData 512 512 16 1 1 (List.replicate 524287 0) =
      .error .PixelDataSizeMismatch :=
  ⟨((pixel_sizing (List.replicate 524288 0)).2).1 (List.length_replicate 524288 0),
   ((pixel_sizing (List.replicate 524287 0)).2).2 (List.length_replicate 524287 0)⟩

/-- C5: UID validation — "1.2.840.10008.1.1" is accepted; "1.2..3" (empty
component) is rejected with `InvalidUID`; every UID of 65 characters is
rejected with `InvalidUID`. -/
theorem uid_validation :
    validateUID (asciiBytes "1.2.840.10008.1.1") =
      .ok (asciiBytes "1.2.840.10008.1.1") ∧
    validateUID (asciiBytes "1.2..3") = .error .InvalidUID ∧
    ∀ u : Bytes, u.length = 65 → validateUID u = .error .InvalidUID := by
  refine ⟨by decide, by decide, ?_⟩
  intro u hu
  unfold validateUID
  rw [if_neg (by simp [isValidUID, hu])]

/-- Witness for C5's universally quantified part at a concrete 65-character
UID. -/
theorem uid_validation_witness :
    validateUID (List.replicate 65 49) = .error .InvalidUID :=
  uid_validation.2.2 (List.replicate 65 49) (by simp)

/-- C6: UID well-formedness invariant — every UID carried in a successfully
decoded record (study, series and instance UID) is a dot-separated sequence
of numeric components, of total length at most 64, with no leading zeros in
any component except the literal component "0" (the predicate `isValidUID`). -/
theorem uid_invariant (B : Bytes) (R : ImageRecord) (h : read B = .ok R) :
    isValidUID R.studyUID = true ∧ isValidUID R.seriesUID = true ∧
      isValidUID R.instanceUID = true := by
  obtain ⟨ts, hf⟩ := (read_ok_iff B R).1 h
  have hWF := readFull_ok_WF B ts R hf
  obtain ⟨_, _, _, _, _, _, _, _, _, _, _, _, _, h1, h2, h3, _⟩ :=
    (WFRecord_iff ts R).1 hWF
  exact ⟨h1, h2, h3⟩

/-- Witness for C6 at the concrete file `write sampleRecord`. -/
theorem uid_invariant_witness :
    isValidUID sampleRecord.studyUID = true ∧
      isValidUID sampleRecord.seriesUID = true ∧
      isValidUID sampleRecord.instanceUID = true :=
  uid_invariant (write sampleRecord .explicitVRLittleEndian) sampleRecord (by decide)

/-- C7: group-length derivation — in every written file the file-meta
group-length element (0002,0000) carries exactly the serialized byte size of
the meta group that follows it, recomputed by the writer from the serialized
elements (the ImageRecord input carries no group-length field that could be
copied). -/
theorem group_length_derivation (R : ImageRecord) (ts : TransferSyntax)
    (h : (metaBody R ts).length < 4294967296) :
    parseElement .explicitVRLittleEndian ((write R ts).drop 132) =
      .ok (glenElement R ts, metaBody R ts ++ dataBytes R ts) ∧
    decodeUL (glenElement R ts).value = (metaBody R ts).length := by
  constructor
  · rw [write_drop_132]
    exact parseElement_serializeElement _ _ _ (valueFits_glen _)
  · exact decodeUL_encodeLE32 _ h

/-- Witness for C7: a record whose serialized file-meta group body is exactly
178 bytes long produces a group-length value of 178. -/
theorem group_length_derivation_witness :
    (metaBody R178 .explicitVRLittleEndian).length = 178 ∧
    decodeUL (glenElement R178 .explicitVRLittleEndian).value =
      (metaBody R178 .explicitVRLittleEndian).length :=
  ⟨by decide, (group_length_derivation R178 .explicitVRLittleEndian (by decide)).2⟩

end Dicom

/-- C8: `read_dicom_file_simple` returns 0 (success) for every filename,
including names of nonexistent files, and never reports an error through its
return value. -/
theorem read_simple_always_zero :
    ∀ filename : String, (read_dicom_file_simple filename).2 = 0 :=
  fun _ => rfl

/-- C9: the outputs of `read_dicom_file_simple` are independent of the
filename — any two calls produce identical out-parameter values (the fixed
dummy data) and the same return value 0. -/
theorem read_simple_filename_independent :
    ∀ f1 f2 : String,
      read_dicom_file_simple f1 = read_dicom_file_simple f2 ∧
      (read_dicom_file_simple f1).1 =
        ⟨"Test Patient", "TEST001", "1.2.3.4.5", "1.2.3.4.5.1", "1.2.3.4.5.1.1",
          "CT", 512, 512, 16, none, 0⟩ ∧
      (read_dicom_file_simple f1).2 = 0 :=
  fun _ _ => ⟨rfl, rfl, rfl⟩

/-- C10: `write_dicom_file_simple` returns 0 for every input and has no
effect — the argument memory is unchanged, no output bytes are produced, and
the emitted bytes and return value do not depend on any argument. -/
theorem write_simple_no_effect :
    ∀ a : WriterArgs,
      write_dicom_file_simple a = (a, [], 0) ∧
      ∀ b : WriterArgs,
        (write_dicom_file_simple a).2 = (write_dicom_file_simple b).2 :=
  fun _ => ⟨rfl, fun _ => rfl⟩
